import Mathlib

/-!
Shallow embedding of the on-chain trade-surveillance pipeline of
`src/server.js` (the blockchain edition: `processBlockchainEvents`,
`checkWalletAge`, the bounded alerted-trades set and the wallet
first-seen cache).

Modelling conventions:
- Remote node calls (block number, balances, timestamps, log queries,
  market lookup, webhook delivery) are an oracle record `Chain`; a call
  that throws in JavaScript is `none`.
- Amounts are exact rationals: `tradeAmount` in JavaScript is
  `parseFloat(ethers.formatUnits(makerAmountFilled, 6))`, i.e. the
  value divided by 10^6; we keep the exact value.
- Millisecond clocks are `Int`; `Math.floor` of a quotient of integer
  millisecond values is `Int.fdiv`.
- A JavaScript `Set` is a duplicate-free list in insertion order; a
  `Map` is an association list where `set` prepends the new binding.
- The per-event `try { ... } catch` of the scan loop can only fail at
  the destructuring or decoding step, before any state is mutated;
  a malformed event is therefore modelled as `none` in the fetched
  event list.
- The dedup key of the code is the string
  `maker.toLowerCase() ++ "-" ++ roundedAmount ++ "-" ++ last 8 chars
  of assetId ++ "-" ++ calendar day`; we model it as the structure of
  these four components (the calendar day as days since the epoch).
-/

/-- Default of `CONFIG.MIN_BET_AMOUNT` (USD). -/
def MIN_BET_AMOUNT : ℚ := 10000

/-- Default of `CONFIG.NEW_ACCOUNT_DAYS`. -/
def NEW_ACCOUNT_DAYS : Int := 7

/-- Capacity of the alerted-trades set, `MAX_STORED_ALERTS` in the code. -/
def MAX_STORED_ALERTS : Nat := 5000

/-- The local `maxBlockRange` constant of `processBlockchainEvents`. -/
def maxBlockRange : Nat := 50

/-- Milliseconds in a day, the `1000 * 60 * 60 * 24` of the code. -/
def msPerDay : Int := 86400000

/-- One decoded `OrderFilled` log, the fields the pipeline reads. -/
structure FillEvent where
  orderHash : String
  maker : String
  makerAssetId : Nat
  makerAmountFilled : Nat
deriving DecidableEq

/-- Market metadata returned by the gamma API; `closed` and `active`
are `Option Bool` because the JavaScript checks `=== true` and
`=== false` on possibly-absent fields. -/
structure Market where
  question : String
  slug : String
  closed : Option Bool
  active : Option Bool
deriving DecidableEq

/-- Payload handed to the Discord notifier for one alert. -/
structure AlertPayload where
  wallet : String
  amount : ℚ
  outcome : String
  orderHash : String
deriving DecidableEq

/-- Result record of `checkWalletAge`. -/
structure WalletInfo where
  isNew : Bool
  ageInDays : Int
  description : String
deriving DecidableEq

/-- Oracle for every remote call the pipeline makes; `none` models a
call that throws. `notify` is the outcome of the webhook post, whose
value the code discards. -/
structure Chain where
  getBlockNumber : Option Nat
  queryFilter : Nat → Nat → Option (List (Option FillEvent))
  getTransactionCount : String → Option Nat
  getBalance : String → Nat → Option Nat
  getBlockTimestamp : Nat → Option Nat
  getMarketByConditionId : String → Option Market
  notify : AlertPayload → Bool

/-- Composite dedup key: lowercased wallet, amount rounded down to the
nearest 100, last 8 characters of the asset id, calendar day. -/
structure AlertKey where
  wallet : String
  amountBucket : Int
  assetSuffix : String
  day : Int
deriving DecidableEq

/-- Mutable state of the monitor: the block cursor, the alerted-keys
set, the wallet first-seen cache, and (as observation) the list of
alert payloads handed to the notifier. -/
structure PState where
  lastProcessedBlock : Nat
  alerted : List AlertKey
  walletFirstSeen : List (String × Int)
  alertsSent : List AlertPayload
deriving DecidableEq

/-- Last `n` characters of a string, the JavaScript `s.slice(-n)`. -/
def sliceLast (s : String) (n : Nat) : String :=
  String.mk (s.data.drop (s.data.length - n))

/-- First `n` characters of a string, the JavaScript `s.slice(0, n)`. -/
def sliceFirst (s : String) (n : Nat) : String :=
  String.mk (s.data.take n)

/-- The `Map.set` of the wallet first-seen cache: prepend the binding,
so lookup finds the newest value. -/
def mapSet (m : List (String × Int)) (k : String) (v : Int) :
    List (String × Int) :=
  (k, v) :: m

/-- The `Set.add` of a JavaScript set: append unless already present. -/
def setAdd {α : Type} [DecidableEq α] (s : List α) (k : α) : List α :=
  if k ∈ s then s else s ++ [k]

/-- Insert a key into the alerted set, then evict the oldest entry if
the size exceeds `MAX_STORED_ALERTS` — the `alertedTrades.add` plus
overflow deletion of the scan loop. -/
def markAlerted {α : Type} [DecidableEq α] (s : List α) (k : α) : List α :=
  let s' := setAdd s k
  if MAX_STORED_ALERTS < s'.length then s'.tail else s'

/-- Fallback record of the inner `catch` of `checkWalletAge` (search
failed for a low-transaction-count wallet). -/
def lowTxFallback : WalletInfo :=
  { isNew := true, ageInDays := 0,
    description := "New Wallet (Low Transaction Count)" }

/-- Fallback record of the outer `catch` of `checkWalletAge`. -/
def errorFallback : WalletInfo :=
  { isNew := true, ageInDays := 0,
    description := "Unknown Age (Error checking blockchain)" }

/-- The bounded binary-search loop of `checkWalletAge`: `fuel` probes
of the midpoint of `currentBlock - blocksToSearch` and the current
candidate `firstTxBlock`, moving the candidate to the midpoint when
the balance there is nonzero; `none` when a balance probe throws. -/
def firstTxSearch (chain : Chain) (address : String)
    (currentBlock blocksToSearch : Nat) :
    Nat → Nat → Option Nat
  | 0, firstTxBlock => some firstTxBlock
  | fuel + 1, firstTxBlock =>
    let midBlock := (currentBlock - blocksToSearch + firstTxBlock) / 2
    match chain.getBalance address midBlock with
    | none => none
    | some bal =>
      firstTxSearch chain address currentBlock blocksToSearch fuel
        (if 0 < bal then midBlock else firstTxBlock)

/-- Instrumented copy of `firstTxSearch` that also returns the list of
probed blocks, used to state how many probes occur and where. -/
def firstTxSearchTrace (chain : Chain) (address : String)
    (currentBlock blocksToSearch : Nat) :
    Nat → Nat → Option (List Nat × Nat)
  | 0, firstTxBlock => some ([], firstTxBlock)
  | fuel + 1, firstTxBlock =>
    let midBlock := (currentBlock - blocksToSearch + firstTxBlock) / 2
    match chain.getBalance address midBlock with
    | none => none
    | some bal =>
      match firstTxSearchTrace chain address currentBlock blocksToSearch fuel
          (if 0 < bal then midBlock else firstTxBlock) with
      | none => none
      | some (probes, r) => some (midBlock :: probes, r)

/-- The `checkWalletAge` of the code: cached-first, then transaction
count dispatch, then the bounded balance search; every failure path
returns a fail-open record. Returns the record and the (possibly
updated) first-seen cache. -/
def checkWalletAge (chain : Chain) (now : Int)
    (walletFirstSeen : List (String × Int)) (address : String) :
    WalletInfo × List (String × Int) :=
  match walletFirstSeen.lookup address with
  | some firstSeenTime =>
    let ageInDays := Int.fdiv (now - firstSeenTime) msPerDay
    ({ isNew := decide (ageInDays ≤ NEW_ACCOUNT_DAYS),
       ageInDays := ageInDays,
       description := if ageInDays = 0 then "Brand New - First Trade Today!"
         else toString ageInDays ++ " days old" }, walletFirstSeen)
  | none =>
    match chain.getTransactionCount address with
    | none => (errorFallback, walletFirstSeen)
    | some txCount =>
      if txCount ≤ 10 then
        match chain.getBlockNumber with
        | none => (lowTxFallback, walletFirstSeen)
        | some currentBlock =>
          let blocksToSearch := min 10000 currentBlock
          match firstTxSearch chain address currentBlock blocksToSearch
              5 currentBlock with
          | none => (lowTxFallback, walletFirstSeen)
          | some firstTxBlock =>
            match chain.getBlockTimestamp firstTxBlock with
            | none => (lowTxFallback, walletFirstSeen)
            | some ts =>
              let firstSeenTimestamp : Int := (ts : Int) * 1000
              let ageInDays := Int.fdiv (now - firstSeenTimestamp) msPerDay
              ({ isNew := decide (ageInDays ≤ NEW_ACCOUNT_DAYS),
                 ageInDays := ageInDays,
                 description := if ageInDays = 0 then
                     "Brand New - First Trade Today!"
                   else toString ageInDays ++ " days old" },
               mapSet walletFirstSeen address firstSeenTimestamp)
      else
        ({ isNew := false, ageInDays := 999,
           description := "Established wallet" }, walletFirstSeen)

/-- Trade amount of an event: `makerAmountFilled` scaled by the six
USDC decimals. -/
def tradeAmountOf (ev : FillEvent) : ℚ :=
  (ev.makerAmountFilled : ℚ) / 1000000

/-- The composite alert key built in the scan loop. -/
def alertKeyOf (ev : FillEvent) (now : Int) : AlertKey :=
  { wallet := ev.maker.toLower
    amountBucket := ⌊tradeAmountOf ev / 100⌋ * 100
    assetSuffix := sliceLast (toString ev.makerAssetId) 8
    day := Int.fdiv now msPerDay }

/-- Outcome heuristic: parity of the last decimal digit of the asset id. -/
def getOutcomeFromAssetId (assetId : Nat) : String :=
  if assetId % 10 % 2 = 0 then "NO" else "YES"

/-- Per-event body of the scan loop of `processBlockchainEvents`:
amount filter, dedup check, wallet-age check, market check, alert
emission and dedup insertion. A `none` event is a malformed log whose
processing failed before any state change (inner `catch`). -/
def processEvent (chain : Chain) (now : Int) (s : PState)
    (ev? : Option FillEvent) : PState :=
  match ev? with
  | none => s
  | some ev =>
    let tradeAmount := tradeAmountOf ev
    if tradeAmount < MIN_BET_AMOUNT then s
    else
      let alertKey := alertKeyOf ev now
      if alertKey ∈ s.alerted then s
      else
        let aged := checkWalletAge chain now s.walletFirstSeen ev.maker
        let s1 : PState := { s with walletFirstSeen := aged.2 }
        if aged.1.isNew then
          match chain.getMarketByConditionId
              (sliceFirst (toString ev.makerAssetId) 66) with
          | none => s1
          | some market =>
            if market.closed = some true ∨ market.active = some false then s1
            else
              let payload : AlertPayload :=
                { wallet := ev.maker, amount := tradeAmount,
                  outcome := getOutcomeFromAssetId ev.makerAssetId,
                  orderHash := ev.orderHash }
              let _delivered := chain.notify payload
              { s1 with
                alertsSent := s1.alertsSent ++ [payload],
                alerted := markAlerted s1.alerted alertKey }
        else s1

/-- Result of one scan tick: the new state and, when a log query was
issued, the queried block range. -/
structure ScanResult where
  state : PState
  queried : Option (Nat × Nat)
deriving DecidableEq

/-- One tick of `processBlockchainEvents`: read the height, no-op when
there is nothing new, otherwise query a chunked range and fold the
per-event body; the cursor advances to `toBlock` exactly when the log
fetch succeeds. -/
def processBlockchainEvents (chain : Chain) (now : Int) (s : PState) :
    ScanResult :=
  match chain.getBlockNumber with
  | none => { state := s, queried := none }
  | some currentBlock =>
    if currentBlock ≤ s.lastProcessedBlock then
      { state := s, queried := none }
    else
      let toBlock := min currentBlock (s.lastProcessedBlock + maxBlockRange)
      match chain.queryFilter (s.lastProcessedBlock + 1) toBlock with
      | none =>
        { state := s, queried := some (s.lastProcessedBlock + 1, toBlock) }
      | some events =>
        let s' := events.foldl (processEvent chain now) s
        { state := { s' with lastProcessedBlock := toBlock },
          queried := some (s.lastProcessedBlock + 1, toBlock) }

/-- Fold a sequence of ticks, each with its own chain snapshot and
clock value. -/
def runTicks (ticks : List (Chain × Int)) (s : PState) : PState :=
  ticks.foldl (fun st ci => (processBlockchainEvents ci.1 ci.2 st).state) s

/-! ### Scanner helper lemmas -/

/-- Height query failure leaves the whole tick a no-op. -/
theorem pbe_no_height (chain : Chain) (now : Int) (s : PState)
    (h : chain.getBlockNumber = none) :
    processBlockchainEvents chain now s = { state := s, queried := none } := by
  unfold processBlockchainEvents
  rw [h]

/-- Nothing-new no-op: chain height at or below the cursor. -/
theorem pbe_noop (chain : Chain) (now : Int) (s : PState) (h : Nat)
    (hbn : chain.getBlockNumber = some h) (hle : h ≤ s.lastProcessedBlock) :
    processBlockchainEvents chain now s = { state := s, queried := none } := by
  unfold processBlockchainEvents
  rw [hbn]
  simp [hle]

/-- Fetch-failure tick: the range was issued but the state is unchanged. -/
theorem pbe_fail (chain : Chain) (now : Int) (s : PState) (h : Nat)
    (hbn : chain.getBlockNumber = some h) (hgt : s.lastProcessedBlock < h)
    (hqf : chain.queryFilter (s.lastProcessedBlock + 1)
      (min h (s.lastProcessedBlock + maxBlockRange)) = none) :
    processBlockchainEvents chain now s =
      { state := s,
        queried := some (s.lastProcessedBlock + 1,
          min h (s.lastProcessedBlock + maxBlockRange)) } := by
  unfold processBlockchainEvents
  rw [hbn]
  simp [Nat.not_le.mpr hgt, hqf]

/-- Successful tick: the events are folded and the cursor is set to
`toBlock`. -/
theorem pbe_success (chain : Chain) (now : Int) (s : PState) (h : Nat)
    (evs : List (Option FillEvent))
    (hbn : chain.getBlockNumber = some h) (hgt : s.lastProcessedBlock < h)
    (hqf : chain.queryFilter (s.lastProcessedBlock + 1)
      (min h (s.lastProcessedBlock + maxBlockRange)) = some evs) :
    processBlockchainEvents chain now s =
      { state := { evs.foldl (processEvent chain now) s with
          lastProcessedBlock := min h (s.lastProcessedBlock + maxBlockRange) },
        queried := some (s.lastProcessedBlock + 1,
          min h (s.lastProcessedBlock + maxBlockRange)) } := by
  unfold processBlockchainEvents
  rw [hbn]
  simp [Nat.not_le.mpr hgt, hqf]

/-- The cursor never moves backwards in one tick. -/
theorem pbe_mono (chain : Chain) (now : Int) (s : PState) :
    s.lastProcessedBlock ≤
      (processBlockchainEvents chain now s).state.lastProcessedBlock := by
  cases hbn : chain.getBlockNumber with
  | none => rw [pbe_no_height chain now s hbn]
  | some h =>
    by_cases hle : h ≤ s.lastProcessedBlock
    · rw [pbe_noop chain now s h hbn hle]
    · cases hqf : chain.queryFilter (s.lastProcessedBlock + 1)
          (min h (s.lastProcessedBlock + maxBlockRange)) with
      | none => rw [pbe_fail chain now s h hbn (by omega) hqf]
      | some evs =>
        rw [pbe_success chain now s h evs hbn (by omega) hqf]
        simp only
        omega

/-- The cursor never moves backwards across any sequence of ticks. -/
theorem runTicks_mono (ticks : List (Chain × Int)) :
    ∀ s : PState,
      s.lastProcessedBlock ≤ (runTicks ticks s).lastProcessedBlock := by
  induction ticks with
  | nil => intro s; simp [runTicks]
  | cons t ts ih =>
    intro s
    have h1 := pbe_mono t.1 t.2 s
    have h2 := ih (processBlockchainEvents t.1 t.2 s).state
    simp only [runTicks, List.foldl_cons] at h2 ⊢
    omega

/-- C1: the block cursor is monotonically non-decreasing. A tick with
chain height at or below the cursor is an empty no-op; a successful
log fetch sets the cursor to `toBlock` whatever the fetched events are
(including none, or malformed ones); a failed fetch leaves the state
unchanged so the next tick re-issues exactly the same range; every
issued range starts at `lastProcessed + 1`, so no block at or below
the cursor is ever re-processed, over any sequence of ticks. -/
theorem processBlockchainEvents_cursor (chain : Chain) (now : Int) (s : PState) :
    (∀ h, chain.getBlockNumber = some h → h ≤ s.lastProcessedBlock →
      processBlockchainEvents chain now s = { state := s, queried := none }) ∧
    (∀ f t, (processBlockchainEvents chain now s).queried = some (f, t) →
      f = s.lastProcessedBlock + 1) ∧
    (∀ h evs, chain.getBlockNumber = some h → s.lastProcessedBlock < h →
      chain.queryFilter (s.lastProcessedBlock + 1)
        (min h (s.lastProcessedBlock + maxBlockRange)) = some evs →
      (processBlockchainEvents chain now s).state.lastProcessedBlock =
        min h (s.lastProcessedBlock + maxBlockRange)) ∧
    (∀ h, chain.getBlockNumber = some h → s.lastProcessedBlock < h →
      chain.queryFilter (s.lastProcessedBlock + 1)
        (min h (s.lastProcessedBlock + maxBlockRange)) = none →
      (processBlockchainEvents chain now s).state = s ∧
      ∀ now', processBlockchainEvents chain now'
          (processBlockchainEvents chain now s).state =
        processBlockchainEvents chain now' s) ∧
    s.lastProcessedBlock ≤
      (processBlockchainEvents chain now s).state.lastProcessedBlock ∧
    (∀ ticks, s.lastProcessedBlock ≤ (runTicks ticks s).lastProcessedBlock) := by
  refine ⟨?_, ?_, ?_, ?_, pbe_mono chain now s, fun ticks => runTicks_mono ticks s⟩
  · intro h hbn hle
    exact pbe_noop chain now s h hbn hle
  · intro f t hq
    cases hbn : chain.getBlockNumber with
    | none => rw [pbe_no_height chain now s hbn] at hq; simp at hq
    | some h =>
      by_cases hle : h ≤ s.lastProcessedBlock
      · rw [pbe_noop chain now s h hbn hle] at hq; simp at hq
      · cases hqf : chain.queryFilter (s.lastProcessedBlock + 1)
            (min h (s.lastProcessedBlock + maxBlockRange)) with
        | none =>
          rw [pbe_fail chain now s h hbn (by omega) hqf] at hq
          simp at hq
          exact hq.1.symm
        | some evs =>
          rw [pbe_success chain now s h evs hbn (by omega) hqf] at hq
          simp at hq
          exact hq.1.symm
  · intro h evs hbn hgt hqf
    rw [pbe_success chain now s h evs hbn hgt hqf]
  · intro h hbn hgt hqf
    rw [pbe_fail chain now s h hbn hgt hqf]
    exact ⟨rfl, fun now' => rfl⟩

/-- C4: every range handed to the log query is
`(lastProcessed + 1, min currentHeight (lastProcessed + maxBlockRange))`
and spans at most `maxBlockRange` blocks. -/
theorem scan_chunk_bound (chain : Chain) (now : Int) (s : PState) (h : Nat)
    (hbn : chain.getBlockNumber = some h) (hgt : s.lastProcessedBlock < h) :
    (processBlockchainEvents chain now s).queried =
      some (s.lastProcessedBlock + 1,
        min h (s.lastProcessedBlock + maxBlockRange)) ∧
    (∀ f t, (processBlockchainEvents chain now s).queried = some (f, t) →
      t - f ≤ maxBlockRange) := by
  have hq : (processBlockchainEvents chain now s).queried =
      some (s.lastProcessedBlock + 1,
        min h (s.lastProcessedBlock + maxBlockRange)) := by
    cases hqf : chain.queryFilter (s.lastProcessedBlock + 1)
        (min h (s.lastProcessedBlock + maxBlockRange)) with
    | none => rw [pbe_fail chain now s h hbn hgt hqf]
    | some evs => rw [pbe_success chain now s h evs hbn hgt hqf]
  refine ⟨hq, ?_⟩
  intro f t hft
  rw [hq] at hft
  have h1 : f = s.lastProcessedBlock + 1 := by
    injection hft with hft'; exact (congrArg Prod.fst hft').symm
  have h2 : t = min h (s.lastProcessedBlock + maxBlockRange) := by
    injection hft with hft'; exact (congrArg Prod.snd hft').symm
  subst h1; subst h2
  have := Nat.min_le_right h (s.lastProcessedBlock + maxBlockRange)
  omega

/-! ### Alerted-set (FIFO) lemmas -/

/-- Inserting a fresh key below capacity appends it. -/
theorem markAlerted_append {α : Type} [DecidableEq α] (s : List α) (k : α)
    (hk : k ∉ s) (hlen : s.length < MAX_STORED_ALERTS) :
    markAlerted s k = s ++ [k] := by
  unfold markAlerted setAdd
  rw [if_neg hk, if_neg (by simp; omega)]

/-- Inserting a fresh key at exact capacity appends it and evicts the
oldest entry. -/
theorem markAlerted_evict {α : Type} [DecidableEq α] (s : List α) (k : α)
    (hk : k ∉ s) (hlen : s.length = MAX_STORED_ALERTS) :
    markAlerted s k = (s ++ [k]).tail := by
  unfold markAlerted setAdd
  rw [if_neg hk, if_pos (by simp; omega)]

/-- Folding fresh distinct keys while staying within capacity is plain
concatenation. -/
theorem foldl_markAlerted_no_evict {α : Type} [DecidableEq α] :
    ∀ (keys : List α) (s : List α), (s ++ keys).Nodup →
      s.length + keys.length ≤ MAX_STORED_ALERTS →
      List.foldl markAlerted s keys = s ++ keys := by
  intro keys
  induction keys with
  | nil => intro s _ _; simp
  | cons k ks ih =>
    intro s hnd hlen
    have hk : k ∉ s := by
      rw [List.nodup_append] at hnd
      intro hmem
      exact hnd.2.2 hmem (List.mem_cons_self k ks)
    have hstep : markAlerted s k = s ++ [k] :=
      markAlerted_append s k hk (by simp at hlen ⊢; omega)
    rw [List.foldl_cons, hstep, ih (s ++ [k])
      (by rwa [List.append_cons] at hnd)
      (by simp at hlen ⊢; omega)]
    simp

/-- Folding fresh distinct keys that overflow capacity by exactly one
drops the oldest entry. -/
theorem foldl_markAlerted_one_evict {α : Type} [DecidableEq α] :
    ∀ (keys : List α) (s : List α), (s ++ keys).Nodup →
      s.length + keys.length = MAX_STORED_ALERTS + 1 →
      s ≠ [] → s.length ≤ MAX_STORED_ALERTS →
      List.foldl markAlerted s keys = (s ++ keys).tail := by
  intro keys
  induction keys with
  | nil =>
    intro s _ hlen _ hle
    simp at hlen
    omega
  | cons k ks ih =>
    intro s hnd hlen hne hle
    have hk : k ∉ s := by
      rw [List.nodup_append] at hnd
      intro hmem
      exact hnd.2.2 hmem (List.mem_cons_self k ks)
    rcases Nat.lt_or_ge s.length MAX_STORED_ALERTS with hlt | hge
    · have hstep : markAlerted s k = s ++ [k] := markAlerted_append s k hk hlt
      rw [List.foldl_cons, hstep, ih (s ++ [k])
        (by rwa [List.append_cons] at hnd)
        (by simp at hlen ⊢; omega)
        (by simp)
        (by simp; omega)]
      simp
    · have heq : s.length = MAX_STORED_ALERTS := by omega
      have hks : ks = [] := by
        simp at hlen
        have := List.length_eq_zero.mp (by omega : ks.length = 0)
        exact this
      subst hks
      have hstep : markAlerted s k = (s ++ [k]).tail := markAlerted_evict s k hk heq
      rw [List.foldl_cons, hstep]
      simp

/-- C3: after every completed `markAlerted` the set size stays within
`MAX_STORED_ALERTS`, and eviction is FIFO: inserting
`MAX_STORED_ALERTS + 1` distinct keys into the empty set leaves
exactly the keys after the first, so the earliest-inserted key is
absent and all later keys are present. -/
theorem markAlerted_capacity_fifo {α : Type} [DecidableEq α]
    (keys : List α) (hnd : keys.Nodup)
    (hlen : keys.length = MAX_STORED_ALERTS + 1) :
    (∀ (s : List α) (k : α), s.length ≤ MAX_STORED_ALERTS →
      (markAlerted s k).length ≤ MAX_STORED_ALERTS) ∧
    List.foldl markAlerted [] keys = keys.tail ∧
    (∀ k, keys.head? = some k → k ∉ List.foldl markAlerted [] keys) ∧
    (∀ k ∈ keys.tail, k ∈ List.foldl markAlerted [] keys) := by
  have hsize : ∀ (s : List α) (k : α), s.length ≤ MAX_STORED_ALERTS →
      (markAlerted s k).length ≤ MAX_STORED_ALERTS := by
    intro s k hs
    by_cases hmem : k ∈ s
    · simp only [markAlerted, setAdd, if_pos hmem]
      split
      · simp only [List.length_tail]
        omega
      · exact hs
    · simp only [markAlerted, setAdd, if_neg hmem]
      split
      · rename_i hgt
        simp only [List.length_tail, List.length_append,
          List.length_singleton] at hgt ⊢
        omega
      · rename_i hngt
        simp only [List.length_append, List.length_singleton] at hngt ⊢
        omega
  have hfold : List.foldl markAlerted [] keys = keys.tail := by
    cases keys with
    | nil => simp at hlen
    | cons k rest =>
      have hk : markAlerted [] k = [k] := by
        apply markAlerted_append [] k (by simp)
        simp [MAX_STORED_ALERTS]
      rw [List.foldl_cons, hk,
        foldl_markAlerted_one_evict rest [k]
          (by simpa using hnd)
          (by simp at hlen ⊢; omega)
          (by simp)
          (by simp [MAX_STORED_ALERTS])]
      simp
  refine ⟨hsize, hfold, ?_, ?_⟩
  · intro k hk
    rw [hfold]
    cases keys with
    | nil => simp at hk
    | cons k0 rest =>
      simp at hk
      subst hk
      simp
      exact (List.nodup_cons.mp hnd).1
  · intro k hk
    rw [hfold]
    exact hk

/-- Witness for C3 at the concrete key list `0, 1, ..., 5000`. -/
theorem markAlerted_capacity_fifo_witness :
    (∀ (s : List Nat) (k : Nat), s.length ≤ MAX_STORED_ALERTS →
      (markAlerted s k).length ≤ MAX_STORED_ALERTS) ∧
    List.foldl markAlerted [] (List.range (MAX_STORED_ALERTS + 1)) =
      (List.range (MAX_STORED_ALERTS + 1)).tail ∧
    (∀ k, (List.range (MAX_STORED_ALERTS + 1)).head? = some k →
      k ∉ List.foldl markAlerted [] (List.range (MAX_STORED_ALERTS + 1))) ∧
    (∀ k ∈ (List.range (MAX_STORED_ALERTS + 1)).tail,
      k ∈ List.foldl markAlerted [] (List.range (MAX_STORED_ALERTS + 1))) :=
  markAlerted_capacity_fifo (List.range (MAX_STORED_ALERTS + 1))
    (List.nodup_range _) (List.length_range _)

/-! ### Per-event pipeline lemmas -/

/-- A key just inserted by `markAlerted` is present afterwards, as long
as the set was within capacity before. -/
theorem mem_markAlerted_self {α : Type} [DecidableEq α] (s : List α) (k : α)
    (hs : s.length ≤ MAX_STORED_ALERTS) : k ∈ markAlerted s k := by
  by_cases hmem : k ∈ s
  · simp only [markAlerted, setAdd, if_pos hmem]
    split
    · rename_i hgt
      exact absurd hgt (by omega)
    · exact hmem
  · simp only [markAlerted, setAdd, if_neg hmem]
    split
    · rename_i hgt
      cases s with
      | nil => simp [MAX_STORED_ALERTS] at hgt
      | cons a t => simp
    · simp

/-- An event whose dedup key is already present leaves the state
untouched (either the amount filter or the dedup check discards it). -/
theorem processEvent_mem_noop (chain : Chain) (now : Int) (s : PState)
    (ev : FillEvent) (hk : alertKeyOf ev now ∈ s.alerted) :
    processEvent chain now s (some ev) = s := by
  by_cases h1 : tradeAmountOf ev < MIN_BET_AMOUNT
  · simp [processEvent, h1]
  · simp [processEvent, h1, hk]

/-- Every branch of the per-event body either leaves the emission log
unchanged, or is the emission branch: the key was absent and is
inserted by `markAlerted`. -/
theorem processEvent_cases (chain : Chain) (now : Int) (s : PState)
    (ev : FillEvent) :
    (processEvent chain now s (some ev)).alertsSent = s.alertsSent ∨
    ((processEvent chain now s (some ev)).alerted =
        markAlerted s.alerted (alertKeyOf ev now) ∧
      alertKeyOf ev now ∉ s.alerted) := by
  by_cases h1 : tradeAmountOf ev < MIN_BET_AMOUNT
  · left; simp [processEvent, h1]
  · by_cases h2 : alertKeyOf ev now ∈ s.alerted
    · left; simp [processEvent, h1, h2]
    · cases h3 : (checkWalletAge chain now s.walletFirstSeen ev.maker).1.isNew
      · left; simp [processEvent, h1, h2, h3]
      · cases h4 : chain.getMarketByConditionId
            (sliceFirst (toString ev.makerAssetId) 66) with
        | none => left; simp [processEvent, h1, h2, h3, h4]
        | some market =>
          by_cases h5 : market.closed = some true ∨ market.active = some false
          · left; simp [processEvent, h1, h2, h3, h4, h5]
          · right
            refine ⟨?_, h2⟩
            simp [processEvent, h1, h2, h3, h4, h5]

/-- C2: while a dedup key is present in the alerted set, an event with
an equal key is discarded with no state change; and after an event is
alerted from a within-capacity state, its key is present, so an
immediately following event with an equal key is discarded and
produces no second alert. -/
theorem processEvent_dedup_invariant (chain : Chain) (now : Int) (s : PState) :
    (∀ ev, alertKeyOf ev now ∈ s.alerted →
      processEvent chain now s (some ev) = s) ∧
    (∀ e1 e2, s.alerted.length ≤ MAX_STORED_ALERTS →
      alertKeyOf e2 now = alertKeyOf e1 now →
      (processEvent chain now s (some e1)).alertsSent ≠ s.alertsSent →
      processEvent chain now (processEvent chain now s (some e1)) (some e2) =
        processEvent chain now s (some e1)) := by
  refine ⟨fun ev hk => processEvent_mem_noop chain now s ev hk, ?_⟩
  intro e1 e2 hlen hkey hne
  rcases processEvent_cases chain now s e1 with h | ⟨halerted, -⟩
  · exact absurd h hne
  · have hmem : alertKeyOf e2 now ∈ (processEvent chain now s (some e1)).alerted := by
      rw [hkey, halerted]
      exact mem_markAlerted_self s.alerted (alertKeyOf e1 now) hlen
    exact processEvent_mem_noop chain now _ e2 hmem

/-! ### Concrete fixtures for witnesses -/

/-- A market that passes the closed and active checks. -/
def marketW : Market :=
  { question := "q", slug := "s", closed := some false, active := some true }

/-- A chain snapshot on which every query succeeds. -/
def chainW : Chain :=
  { getBlockNumber := some 5
    queryFilter := fun _ _ => some []
    getTransactionCount := fun _ => some 3
    getBalance := fun _ _ => some 0
    getBlockTimestamp := fun _ => some 1
    getMarketByConditionId := fun _ => some marketW
    notify := fun _ => false }

/-- A chain snapshot whose log fetch fails. -/
def chainWFail : Chain :=
  { chainW with queryFilter := fun _ _ => none }

/-- An event worth 20000 dollars from wallet `0xab`. -/
def evW : FillEvent :=
  { orderHash := "h1", maker := "0xab", makerAssetId := 123456789,
    makerAmountFilled := 20000000000 }

/-- An event worth 9999 dollars, below the minimum. -/
def evSmall : FillEvent :=
  { orderHash := "h9", maker := "0xcd", makerAssetId := 1,
    makerAmountFilled := 9999000000 }

/-- A state whose cursor is at block 3 and whose cache knows `0xab` as
first seen at epoch time 0. -/
def sW : PState :=
  { lastProcessedBlock := 3, alerted := [],
    walletFirstSeen := [("0xab", 0)], alertsSent := [] }

/-- Witness for C1 on `chainW` (height 5, cursor 3, empty fetch) and
`chainWFail` (failed fetch). -/
theorem processBlockchainEvents_cursor_witness :
    (processBlockchainEvents chainW 0 sW).state.lastProcessedBlock = 5 ∧
    (processBlockchainEvents chainWFail 0 sW).state = sW := by
  constructor
  · have h := (processBlockchainEvents_cursor chainW 0 sW).2.2.1 5 []
      rfl (by decide) rfl
    simpa using h
  · exact ((processBlockchainEvents_cursor chainWFail 0 sW).2.2.2.1 5
      rfl (by decide) rfl).1

/-- Witness for C4: the range issued from cursor 3 at height 5. -/
theorem scan_chunk_bound_witness :
    (processBlockchainEvents chainW 0 sW).queried = some (4, 5) ∧
    ∀ f t, (processBlockchainEvents chainW 0 sW).queried = some (f, t) →
      t - f ≤ maxBlockRange := by
  have h := scan_chunk_bound chainW 0 sW 5 rfl (by decide)
  simpa using h

/-- The alert payload built in the emission branch. -/
def payloadOf (ev : FillEvent) : AlertPayload :=
  { wallet := ev.maker, amount := tradeAmountOf ev,
    outcome := getOutcomeFromAssetId ev.makerAssetId,
    orderHash := ev.orderHash }

/-- Closed form of the emission branch of the per-event body. -/
theorem processEvent_emit (chain : Chain) (now : Int) (s : PState)
    (ev : FillEvent) (market : Market)
    (h1 : ¬ tradeAmountOf ev < MIN_BET_AMOUNT)
    (h2 : alertKeyOf ev now ∉ s.alerted)
    (h3 : (checkWalletAge chain now s.walletFirstSeen ev.maker).1.isNew = true)
    (h4 : chain.getMarketByConditionId
      (sliceFirst (toString ev.makerAssetId) 66) = some market)
    (h5 : ¬ (market.closed = some true ∨ market.active = some false)) :
    processEvent chain now s (some ev) =
      { lastProcessedBlock := s.lastProcessedBlock,
        alerted := markAlerted s.alerted (alertKeyOf ev now),
        walletFirstSeen := (checkWalletAge chain now s.walletFirstSeen ev.maker).2,
        alertsSent := s.alertsSent ++ [payloadOf ev] } := by
  simp [processEvent, h1, h2, h3, h4, h5, payloadOf]

/-- Witness for C2: replaying the identical large-trade event right
after it was alerted changes nothing. -/
theorem processEvent_dedup_invariant_witness :
    processEvent chainW 0 (processEvent chainW 0 sW (some evW)) (some evW) =
      processEvent chainW 0 sW (some evW) := by
  have hamt : ¬ tradeAmountOf evW < MIN_BET_AMOUNT := by
    norm_num [tradeAmountOf, evW, MIN_BET_AMOUNT]
  have hne : (processEvent chainW 0 sW (some evW)).alertsSent ≠ sW.alertsSent := by
    rw [processEvent_emit chainW 0 sW evW marketW hamt (by simp [sW])
      (by decide) rfl (by decide)]
    simp [sW]
  exact (processEvent_dedup_invariant chainW 0 sW).2 evW evW
    (by simp [sW, MAX_STORED_ALERTS]) rfl hne

/-- C9: an event whose trade amount is below `MIN_BET_AMOUNT` is
discarded silently: the state is returned unchanged (no dedup-key
insertion, no wallet-age cache change, no alert), whatever the chain
oracle, so no wallet-age or market query can influence the result. -/
theorem processEvent_amount_filter (chain : Chain) (now : Int) (s : PState)
    (ev : FillEvent) (h : tradeAmountOf ev < MIN_BET_AMOUNT) :
    processEvent chain now s (some ev) = s := by
  simp [processEvent, h]

/-- Witness for C9: the 9999-dollar event with the 10000 threshold. -/
theorem processEvent_amount_filter_witness :
    processEvent chainW 0 sW (some evSmall) = sW :=
  processEvent_amount_filter chainW 0 sW evSmall
    (by norm_num [tradeAmountOf, evSmall, MIN_BET_AMOUNT])

/-! ### Notifier independence -/

/-- The balance search never reads the notifier field. -/
theorem firstTxSearch_notify (chain : Chain) (notify2 : AlertPayload → Bool)
    (address : String) (currentBlock blocksToSearch : Nat) :
    ∀ fuel firstTxBlock,
      firstTxSearch { chain with notify := notify2 } address currentBlock
          blocksToSearch fuel firstTxBlock =
        firstTxSearch chain address currentBlock blocksToSearch
          fuel firstTxBlock := by
  intro fuel
  induction fuel with
  | zero => intro fb; rfl
  | succ fuel ih =>
    intro fb
    simp only [firstTxSearch]
    cases chain.getBalance address ((currentBlock - blocksToSearch + fb) / 2) with
    | none => rfl
    | some bal => exact ih (if 0 < bal then (currentBlock - blocksToSearch + fb) / 2 else fb)

/-- The wallet-age estimator never reads the notifier field. -/
theorem checkWalletAge_notify (chain : Chain) (notify2 : AlertPayload → Bool)
    (now : Int) (cache : List (String × Int)) (address : String) :
    checkWalletAge { chain with notify := notify2 } now cache address =
      checkWalletAge chain now cache address := by
  simp only [checkWalletAge, firstTxSearch_notify]

/-- C8: the per-event body is independent of the notifier outcome: for
every notifier behavior substituted into the chain, the resulting
state (alerted set included) is identical; and whenever processing the
event emitted an alert, the dedup key ends up in the alerted set —
whatever the notifier returned. -/
theorem processEvent_notifier_independent (chain : Chain)
    (notify2 : AlertPayload → Bool) (now : Int) (s : PState)
    (ev : FillEvent) :
    processEvent { chain with notify := notify2 } now s (some ev) =
      processEvent chain now s (some ev) ∧
    (s.alerted.length ≤ MAX_STORED_ALERTS →
      (processEvent chain now s (some ev)).alertsSent ≠ s.alertsSent →
      alertKeyOf ev now ∈ (processEvent chain now s (some ev)).alerted) := by
  constructor
  · simp only [processEvent, checkWalletAge_notify]
  · intro hlen hne
    rcases processEvent_cases chain now s ev with h | ⟨halerted, -⟩
    · exact absurd h hne
    · rw [halerted]
      exact mem_markAlerted_self s.alerted (alertKeyOf ev now) hlen

/-- Witness for C8: substituting an always-succeeding notifier for the
always-failing one changes nothing, and the emitted alert key is in
the set. -/
theorem processEvent_notifier_independent_witness :
    processEvent { chainW with notify := fun _ => true } 0 sW (some evW) =
      processEvent chainW 0 sW (some evW) ∧
    alertKeyOf evW 0 ∈ (processEvent chainW 0 sW (some evW)).alerted := by
  have hamt : ¬ tradeAmountOf evW < MIN_BET_AMOUNT := by
    norm_num [tradeAmountOf, evW, MIN_BET_AMOUNT]
  have hne : (processEvent chainW 0 sW (some evW)).alertsSent ≠ sW.alertsSent := by
    rw [processEvent_emit chainW 0 sW evW marketW hamt (by simp [sW])
      (by decide) rfl (by decide)]
    simp [sW]
  have h := processEvent_notifier_independent chainW (fun _ => true) 0 sW evW
  exact ⟨h.1, h.2 (by simp [sW, MAX_STORED_ALERTS]) hne⟩

/-! ### Wallet-age estimator: failure paths -/

/-- C6: for an uncached address, every failure during the estimation —
transaction-count query, height query, a balance probe inside the
search, or the block-timestamp resolution — yields a fail-open record
with `isNew = true` and `ageInDays = 0` and an unknown-age description,
and leaves the cache unchanged, instead of propagating the error. -/
theorem checkWalletAge_fail_open (chain : Chain) (now : Int)
    (cache : List (String × Int)) (address : String)
    (hmiss : cache.lookup address = none) :
    (chain.getTransactionCount address = none →
      checkWalletAge chain now cache address = (errorFallback, cache)) ∧
    (∀ n, chain.getTransactionCount address = some n → n ≤ 10 →
      chain.getBlockNumber = none →
      checkWalletAge chain now cache address = (lowTxFallback, cache)) ∧
    (∀ n cb, chain.getTransactionCount address = some n → n ≤ 10 →
      chain.getBlockNumber = some cb →
      firstTxSearch chain address cb (min 10000 cb) 5 cb = none →
      checkWalletAge chain now cache address = (lowTxFallback, cache)) ∧
    (∀ n cb r, chain.getTransactionCount address = some n → n ≤ 10 →
      chain.getBlockNumber = some cb →
      firstTxSearch chain address cb (min 10000 cb) 5 cb = some r →
      chain.getBlockTimestamp r = none →
      checkWalletAge chain now cache address = (lowTxFallback, cache)) ∧
    errorFallback.isNew = true ∧ errorFallback.ageInDays = 0 ∧
    lowTxFallback.isNew = true ∧ lowTxFallback.ageInDays = 0 := by
  refine ⟨?_, ?_, ?_, ?_, rfl, rfl, rfl, rfl⟩
  · intro htc
    simp [checkWalletAge, hmiss, htc]
  · intro n htc hn hcb
    simp [checkWalletAge, hmiss, htc, hn, hcb]
  · intro n cb htc hn hcb hsearch
    simp [checkWalletAge, hmiss, htc, hn, hcb, hsearch]
  · intro n cb r htc hn hcb hsearch hts
    simp [checkWalletAge, hmiss, htc, hn, hcb, hsearch, hts]

/-- A chain whose transaction-count query fails. -/
def chainWNoTx : Chain :=
  { chainW with getTransactionCount := fun _ => none }

/-- A chain whose height query fails. -/
def chainWNoHeight : Chain :=
  { chainW with getBlockNumber := none }

/-- A chain whose balance probes fail. -/
def chainWNoBalance : Chain :=
  { chainW with getBalance := fun _ _ => none }

/-- A chain whose block-timestamp query fails. -/
def chainWNoStamp : Chain :=
  { chainW with getBlockTimestamp := fun _ => none }

/-- Witness for C6 on the four failing chains. -/
theorem checkWalletAge_fail_open_witness :
    checkWalletAge chainWNoTx 0 [] "w" = (errorFallback, []) ∧
    checkWalletAge chainWNoHeight 0 [] "w" = (lowTxFallback, []) ∧
    checkWalletAge chainWNoBalance 0 [] "w" = (lowTxFallback, []) ∧
    checkWalletAge chainWNoStamp 0 [] "w" = (lowTxFallback, []) := by
  refine ⟨?_, ?_, ?_, ?_⟩
  · exact (checkWalletAge_fail_open chainWNoTx 0 [] "w" rfl).1 rfl
  · exact (checkWalletAge_fail_open chainWNoHeight 0 [] "w" rfl).2.1
      3 rfl (by decide) rfl
  · exact (checkWalletAge_fail_open chainWNoBalance 0 [] "w" rfl).2.2.1
      3 5 rfl (by decide) rfl rfl
  · exact (checkWalletAge_fail_open chainWNoStamp 0 [] "w" rfl).2.2.2.1
      3 5 5 rfl (by decide) rfl rfl rfl

/-! ### Wallet-age estimator: cached path -/

/-- Shifting the numerator of a floor division by a nonnegative delta
moves the quotient by the floor of the delta or one more, and by
exactly the floor of the delta when the delta is a whole number of
days. -/
theorem fdiv_shift_bounds (x d' : Int) (hd' : 0 ≤ d') :
    (Int.fdiv (x + d') msPerDay - Int.fdiv x msPerDay =
        Int.fdiv d' msPerDay ∨
      Int.fdiv (x + d') msPerDay - Int.fdiv x msPerDay =
        Int.fdiv d' msPerDay + 1) ∧
    (msPerDay ∣ d' → Int.fdiv (x + d') msPerDay - Int.fdiv x msPerDay =
      Int.fdiv d' msPerDay) := by
  have hd : (0 : Int) < msPerDay := by norm_num [msPerDay]
  rw [Int.fdiv_eq_ediv _ (le_of_lt hd), Int.fdiv_eq_ediv _ (le_of_lt hd),
    Int.fdiv_eq_ediv _ (le_of_lt hd)]
  have hmod : msPerDay * (d' / msPerDay) + d' % msPerDay = d' :=
    Int.ediv_add_emod d' msPerDay
  have hr0 : 0 ≤ d' % msPerDay := Int.emod_nonneg d' (by norm_num [msPerDay])
  have hr1 : d' % msPerDay < msPerDay := Int.emod_lt_of_pos d' hd
  have key : (x + d') / msPerDay =
      (x + d' % msPerDay) / msPerDay + d' / msPerDay := by
    have hx : x + d' = (x + d' % msPerDay) + (d' / msPerDay) * msPerDay := by
      simp only [msPerDay] at hmod ⊢
      omega
    rw [hx, Int.add_mul_ediv_right _ _ (by norm_num [msPerDay])]
  have lb : x / msPerDay ≤ (x + d' % msPerDay) / msPerDay :=
    Int.ediv_le_ediv hd (by omega)
  have ub : (x + d' % msPerDay) / msPerDay ≤ x / msPerDay + 1 := by
    have h1 : (x + d' % msPerDay) / msPerDay ≤
        ((x - 1) + 1 * msPerDay) / msPerDay :=
      Int.ediv_le_ediv hd (by simp only [msPerDay] at hr1 ⊢; omega)
    have h2 : ((x - 1) + 1 * msPerDay) / msPerDay = (x - 1) / msPerDay + 1 :=
      Int.add_mul_ediv_right _ _ (by norm_num [msPerDay])
    have h3 : (x - 1) / msPerDay ≤ x / msPerDay :=
      Int.ediv_le_ediv hd (by omega)
    omega
  constructor
  · omega
  · intro hdvd
    have hr : d' % msPerDay = 0 := Int.emod_eq_zero_of_dvd hdvd
    rw [key, hr, add_zero]
    omega

/-- C7 counterexample: with a cached first-seen time of 0, the ages at
now = 86399999 and now = 86400000 (a delta of one millisecond across a
day boundary) differ by 1, while the claim predicts a difference of
floor(1 ms / day) = 0. -/
theorem checkWalletAge_cached_cex :
    (checkWalletAge chainW 86400000 [("a", 0)] "a").1.ageInDays -
        (checkWalletAge chainW 86399999 [("a", 0)] "a").1.ageInDays ≠
      Int.fdiv (86400000 - 86399999) msPerDay := by
  decide

/-- C7 (amended): for a cached address the estimator recomputes
`ageInDays` as the floor of the elapsed time in days and returns
`isNew = (ageInDays <= NEW_ACCOUNT_DAYS)` without touching the cache;
two calls separated by a nonnegative simulated delta yield ages
differing by `floor(delta / 1 day)` or that plus one, and by exactly
`floor(delta / 1 day)` when the delta is a whole number of days. -/
theorem checkWalletAge_cached (chain : Chain) (cache : List (String × Int))
    (address : String) (ts now d' : Int)
    (hc : cache.lookup address = some ts) (hd' : 0 ≤ d') :
    (checkWalletAge chain now cache address).1.ageInDays =
      Int.fdiv (now - ts) msPerDay ∧
    (checkWalletAge chain now cache address).1.isNew =
      decide (Int.fdiv (now - ts) msPerDay ≤ NEW_ACCOUNT_DAYS) ∧
    (checkWalletAge chain now cache address).2 = cache ∧
    ((checkWalletAge chain (now + d') cache address).1.ageInDays -
        (checkWalletAge chain now cache address).1.ageInDays =
          Int.fdiv d' msPerDay ∨
      (checkWalletAge chain (now + d') cache address).1.ageInDays -
        (checkWalletAge chain now cache address).1.ageInDays =
          Int.fdiv d' msPerDay + 1) ∧
    (msPerDay ∣ d' →
      (checkWalletAge chain (now + d') cache address).1.ageInDays -
        (checkWalletAge chain now cache address).1.ageInDays =
          Int.fdiv d' msPerDay) := by
  have h1 : (checkWalletAge chain now cache address).1.ageInDays =
      Int.fdiv (now - ts) msPerDay := by
    simp [checkWalletAge, hc]
  have h2 : (checkWalletAge chain (now + d') cache address).1.ageInDays =
      Int.fdiv ((now - ts) + d') msPerDay := by
    have hx : now + d' - ts = (now - ts) + d' := by ring
    simp [checkWalletAge, hc, hx]
  refine ⟨h1, by simp [checkWalletAge, hc], by simp [checkWalletAge, hc], ?_, ?_⟩
  · rw [h1, h2]
    exact (fdiv_shift_bounds (now - ts) d' hd').1
  · intro hdvd
    rw [h1, h2]
    exact (fdiv_shift_bounds (now - ts) d' hd').2 hdvd

/-- Witness for C7 (amended) at the concrete cached wallet `a`. -/
theorem checkWalletAge_cached_witness :
    (checkWalletAge chainW 86399999 [("a", 0)] "a").1.ageInDays =
      Int.fdiv (86399999 - 0) msPerDay ∧
    (checkWalletAge chainW 86399999 [("a", 0)] "a").1.isNew =
      decide (Int.fdiv (86399999 - 0) msPerDay ≤ NEW_ACCOUNT_DAYS) ∧
    (checkWalletAge chainW 86399999 [("a", 0)] "a").2 = [("a", 0)] ∧
    ((checkWalletAge chainW (86399999 + 1) [("a", 0)] "a").1.ageInDays -
        (checkWalletAge chainW 86399999 [("a", 0)] "a").1.ageInDays =
          Int.fdiv 1 msPerDay ∨
      (checkWalletAge chainW (86399999 + 1) [("a", 0)] "a").1.ageInDays -
        (checkWalletAge chainW 86399999 [("a", 0)] "a").1.ageInDays =
          Int.fdiv 1 msPerDay + 1) ∧
    (msPerDay ∣ 1 →
      (checkWalletAge chainW (86399999 + 1) [("a", 0)] "a").1.ageInDays -
        (checkWalletAge chainW 86399999 [("a", 0)] "a").1.ageInDays =
          Int.fdiv 1 msPerDay) :=
  checkWalletAge_cached chainW [("a", 0)] "a" 0 86399999 1 rfl (by decide)

/-! ### Search trace lemmas -/

/-- Step equation of the plain search when the probe fails. -/
theorem firstTxSearch_succ_none (chain : Chain) (address : String)
    (cb bts fuel fb : Nat)
    (hb : chain.getBalance address ((cb - bts + fb) / 2) = none) :
    firstTxSearch chain address cb bts (fuel + 1) fb = none := by
  simp [firstTxSearch, hb]

/-- Step equation of the plain search when the probe succeeds. -/
theorem firstTxSearch_succ_some (chain : Chain) (address : String)
    (cb bts fuel fb bal : Nat)
    (hb : chain.getBalance address ((cb - bts + fb) / 2) = some bal) :
    firstTxSearch chain address cb bts (fuel + 1) fb =
      firstTxSearch chain address cb bts fuel
        (if 0 < bal then (cb - bts + fb) / 2 else fb) := by
  simp [firstTxSearch, hb]

/-- Step equation of the instrumented search when the probe fails. -/
theorem firstTxSearchTrace_succ_none (chain : Chain) (address : String)
    (cb bts fuel fb : Nat)
    (hb : chain.getBalance address ((cb - bts + fb) / 2) = none) :
    firstTxSearchTrace chain address cb bts (fuel + 1) fb = none := by
  simp [firstTxSearchTrace, hb]

/-- Step equation of the instrumented search when the probe succeeds. -/
theorem firstTxSearchTrace_succ_some (chain : Chain) (address : String)
    (cb bts fuel fb bal : Nat)
    (hb : chain.getBalance address ((cb - bts + fb) / 2) = some bal) :
    firstTxSearchTrace chain address cb bts (fuel + 1) fb =
      match firstTxSearchTrace chain address cb bts fuel
          (if 0 < bal then (cb - bts + fb) / 2 else fb) with
      | none => none
      | some (probes, r) => some ((cb - bts + fb) / 2 :: probes, r) := by
  simp [firstTxSearchTrace, hb]

/-- The instrumented search agrees with the plain one. -/
theorem firstTxSearchTrace_snd (chain : Chain) (address : String)
    (cb bts : Nat) :
    ∀ fuel fb, Option.map Prod.snd
        (firstTxSearchTrace chain address cb bts fuel fb) =
      firstTxSearch chain address cb bts fuel fb := by
  intro fuel
  induction fuel with
  | zero => intro fb; rfl
  | succ fuel ih =>
    intro fb
    cases hb : chain.getBalance address ((cb - bts + fb) / 2) with
    | none =>
      rw [firstTxSearchTrace_succ_none chain address cb bts fuel fb hb,
        firstTxSearch_succ_none chain address cb bts fuel fb hb]
      rfl
    | some bal =>
      rw [firstTxSearchTrace_succ_some chain address cb bts fuel fb bal hb,
        firstTxSearch_succ_some chain address cb bts fuel fb bal hb]
      have h := ih (if 0 < bal then (cb - bts + fb) / 2 else fb)
      cases htr : firstTxSearchTrace chain address cb bts fuel
          (if 0 < bal then (cb - bts + fb) / 2 else fb) with
      | none => rw [htr] at h; simpa using h
      | some pr =>
        obtain ⟨ps, r⟩ := pr
        rw [htr] at h
        simpa using h

/-- The search on success makes exactly `fuel` probes. -/
theorem firstTxSearchTrace_length (chain : Chain) (address : String)
    (cb bts : Nat) :
    ∀ fuel fb probes r,
      firstTxSearchTrace chain address cb bts fuel fb = some (probes, r) →
      probes.length = fuel := by
  intro fuel
  induction fuel with
  | zero =>
    intro fb probes r h
    simp only [firstTxSearchTrace] at h
    injection h with h'
    have h1 : probes = [] := (congrArg Prod.fst h').symm
    subst h1
    rfl
  | succ fuel ih =>
    intro fb probes r h
    cases hb : chain.getBalance address ((cb - bts + fb) / 2) with
    | none =>
      rw [firstTxSearchTrace_succ_none chain address cb bts fuel fb hb] at h
      simp at h
    | some bal =>
      rw [firstTxSearchTrace_succ_some chain address cb bts fuel fb bal hb] at h
      cases htr : firstTxSearchTrace chain address cb bts fuel
          (if 0 < bal then (cb - bts + fb) / 2 else fb) with
      | none => rw [htr] at h; simp at h
      | some pr =>
        obtain ⟨ps, r'⟩ := pr
        rw [htr] at h
        simp at h
        obtain ⟨hps, -⟩ := h
        rw [← hps]
        simp [ih _ _ _ htr]

/-- Every probe and the final candidate stay inside the lookback
window, and the candidate never increases. -/
theorem firstTxSearchTrace_range (chain : Chain) (address : String)
    (cb bts : Nat) (hbts : bts ≤ cb) :
    ∀ fuel fb probes r, cb - bts ≤ fb → fb ≤ cb →
      firstTxSearchTrace chain address cb bts fuel fb = some (probes, r) →
      (∀ p ∈ probes, cb - bts ≤ p ∧ p ≤ cb) ∧
      cb - bts ≤ r ∧ r ≤ cb ∧ r ≤ fb := by
  intro fuel
  induction fuel with
  | zero =>
    intro fb probes r hlo hhi h
    simp only [firstTxSearchTrace] at h
    injection h with h'
    have h1 : probes = [] := (congrArg Prod.fst h').symm
    have h2 : r = fb := (congrArg Prod.snd h').symm
    subst h1; subst h2
    simp
    omega
  | succ fuel ih =>
    intro fb probes r hlo hhi h
    cases hb : chain.getBalance address ((cb - bts + fb) / 2) with
    | none =>
      rw [firstTxSearchTrace_succ_none chain address cb bts fuel fb hb] at h
      simp at h
    | some bal =>
      rw [firstTxSearchTrace_succ_some chain address cb bts fuel fb bal hb] at h
      cases htr : firstTxSearchTrace chain address cb bts fuel
          (if 0 < bal then (cb - bts + fb) / 2 else fb) with
      | none => rw [htr] at h; simp at h
      | some pr =>
        obtain ⟨ps, r'⟩ := pr
        rw [htr] at h
        simp at h
        obtain ⟨hps, hr⟩ := h
        have hmid1 : cb - bts ≤ (cb - bts + fb) / 2 := by omega
        have hmid2 : (cb - bts + fb) / 2 ≤ fb := by omega
        have hfb1 : cb - bts ≤ (if 0 < bal then (cb - bts + fb) / 2 else fb) := by
          split <;> omega
        have hfb2 : (if 0 < bal then (cb - bts + fb) / 2 else fb) ≤ fb := by
          split <;> omega
        have hih := ih _ ps r' hfb1 (by omega) htr
        subst hr
        refine ⟨?_, by omega, by omega, by omega⟩
        intro p hp
        rw [← hps] at hp
        rcases List.mem_cons.mp hp with hpm | hpm
        · subst hpm; omega
        · exact hih.1 p hpm

/-- When every probed balance is zero the candidate never moves. -/
theorem firstTxSearchTrace_zero (chain : Chain) (address : String)
    (cb bts : Nat) :
    ∀ fuel fb probes r,
      firstTxSearchTrace chain address cb bts fuel fb = some (probes, r) →
      (∀ p ∈ probes, chain.getBalance address p = some 0) →
      r = fb := by
  intro fuel
  induction fuel with
  | zero =>
    intro fb probes r h _
    simp only [firstTxSearchTrace] at h
    injection h with h'
    exact (congrArg Prod.snd h').symm
  | succ fuel ih =>
    intro fb probes r h hzero
    cases hb : chain.getBalance address ((cb - bts + fb) / 2) with
    | none =>
      rw [firstTxSearchTrace_succ_none chain address cb bts fuel fb hb] at h
      simp at h
    | some bal =>
      rw [firstTxSearchTrace_succ_some chain address cb bts fuel fb bal hb] at h
      cases htr : firstTxSearchTrace chain address cb bts fuel
          (if 0 < bal then (cb - bts + fb) / 2 else fb) with
      | none => rw [htr] at h; simp at h
      | some pr =>
        obtain ⟨ps, r'⟩ := pr
        rw [htr] at h
        simp at h
        obtain ⟨hps, hr⟩ := h
        have hmid : chain.getBalance address ((cb - bts + fb) / 2) = some 0 := by
          apply hzero
          rw [← hps]
          exact List.mem_cons_self _ _
        have hbal0 : bal = 0 := by
          rw [hb] at hmid
          exact Option.some.inj hmid
        subst hbal0
        rw [if_neg (by omega)] at htr
        subst hr
        apply ih _ ps r' htr
        intro p hp
        apply hzero
        rw [← hps]
        exact List.mem_cons_of_mem _ hp

/-- The final candidate is either the starting block or a probed block
with nonzero balance. -/
theorem firstTxSearchTrace_landing (chain : Chain) (address : String)
    (cb bts : Nat) :
    ∀ fuel fb probes r,
      firstTxSearchTrace chain address cb bts fuel fb = some (probes, r) →
      r = fb ∨ (r ∈ probes ∧
        ∃ b, chain.getBalance address r = some b ∧ 0 < b) := by
  intro fuel
  induction fuel with
  | zero =>
    intro fb probes r h
    simp only [firstTxSearchTrace] at h
    injection h with h'
    exact Or.inl (congrArg Prod.snd h').symm
  | succ fuel ih =>
    intro fb probes r h
    cases hb : chain.getBalance address ((cb - bts + fb) / 2) with
    | none =>
      rw [firstTxSearchTrace_succ_none chain address cb bts fuel fb hb] at h
      simp at h
    | some bal =>
      rw [firstTxSearchTrace_succ_some chain address cb bts fuel fb bal hb] at h
      cases htr : firstTxSearchTrace chain address cb bts fuel
          (if 0 < bal then (cb - bts + fb) / 2 else fb) with
      | none => rw [htr] at h; simp at h
      | some pr =>
        obtain ⟨ps, r'⟩ := pr
        rw [htr] at h
        simp at h
        obtain ⟨hps, hr⟩ := h
        subst hr
        rcases ih _ ps r' htr with hcase | ⟨hmem, b, hbal, hposb⟩
        · by_cases hpos : 0 < bal
          · right
            rw [if_pos hpos] at hcase
            subst hcase
            refine ⟨by rw [← hps]; exact List.mem_cons_self _ _, bal, hb, hpos⟩
          · left
            rw [if_neg hpos] at hcase
            exact hcase
        · right
          exact ⟨by rw [← hps]; exact List.mem_cons_of_mem _ hmem, b, hbal, hposb⟩

/-! ### Wallet-age estimator: search structure -/

/-- C5: for an uncached address the estimator dispatches on the
transaction count: above the fixed threshold 10 it classifies the
wallet as established with no balance search; at or below 10 it runs
exactly 5 midpoint probes over the window
`[currentHeight - min 10000 currentHeight, currentHeight]` with a
non-increasing candidate that lands on the start block or a probed
block of nonzero balance, then resolves that block timestamp, computes
the age, caches the first-seen time, and returns
`isNew = (ageInDays <= NEW_ACCOUNT_DAYS)`. -/
theorem checkWalletAge_search_structure (chain : Chain) (now : Int)
    (cache : List (String × Int)) (address : String)
    (hmiss : cache.lookup address = none) :
    (∀ n, chain.getTransactionCount address = some n → 10 < n →
      checkWalletAge chain now cache address =
        ({ isNew := false, ageInDays := 999,
           description := "Established wallet" }, cache)) ∧
    (∀ n cb probes r ts,
      chain.getTransactionCount address = some n → n ≤ 10 →
      chain.getBlockNumber = some cb →
      firstTxSearchTrace chain address cb (min 10000 cb) 5 cb =
        some (probes, r) →
      chain.getBlockTimestamp r = some ts →
      probes.length = 5 ∧
      (∀ p ∈ probes, cb - min 10000 cb ≤ p ∧ p ≤ cb) ∧
      r ≤ cb ∧
      (r = cb ∨ (r ∈ probes ∧
        ∃ b, chain.getBalance address r = some b ∧ 0 < b)) ∧
      checkWalletAge chain now cache address =
        ({ isNew := decide (Int.fdiv (now - (ts : Int) * 1000) msPerDay ≤
              NEW_ACCOUNT_DAYS),
           ageInDays := Int.fdiv (now - (ts : Int) * 1000) msPerDay,
           description :=
             if Int.fdiv (now - (ts : Int) * 1000) msPerDay = 0 then
               "Brand New - First Trade Today!"
             else toString (Int.fdiv (now - (ts : Int) * 1000) msPerDay) ++
               " days old" },
         mapSet cache address ((ts : Int) * 1000))) := by
  constructor
  · intro n htc hgt
    simp [checkWalletAge, hmiss, htc, show ¬ n ≤ 10 by omega]
  · intro n cb probes r ts htc hn hcb htr hts
    have hsearch : firstTxSearch chain address cb (min 10000 cb) 5 cb =
        some r := by
      rw [← firstTxSearchTrace_snd chain address cb (min 10000 cb) 5 cb, htr]
      rfl
    have hrange := firstTxSearchTrace_range chain address cb (min 10000 cb)
      (Nat.min_le_right 10000 cb) 5 cb probes r (Nat.sub_le cb _)
      (le_refl cb) htr
    refine ⟨firstTxSearchTrace_length chain address cb (min 10000 cb)
        5 cb probes r htr,
      hrange.1, by omega,
      firstTxSearchTrace_landing chain address cb (min 10000 cb)
        5 cb probes r htr, ?_⟩
    simp [checkWalletAge, hmiss, htc, hn, hcb, hsearch, hts]

/-- A chain whose transaction-count query reports an established
wallet. -/
def chainWEst : Chain :=
  { chainW with getTransactionCount := fun _ => some 42 }

/-- Witness for C5 on the concrete chains: an established wallet skips
the search, and a 3-transaction wallet runs the five-probe search. -/
theorem checkWalletAge_search_structure_witness :
    (checkWalletAge chainWEst 0 [] "w" =
      ({ isNew := false, ageInDays := 999,
         description := "Established wallet" }, [])) ∧
    (([2, 2, 2, 2, 2] : List Nat).length = 5 ∧
      (∀ p ∈ ([2, 2, 2, 2, 2] : List Nat),
        5 - min 10000 5 ≤ p ∧ p ≤ 5) ∧
      5 ≤ 5 ∧
      ((5 : Nat) = 5 ∨ ((5 : Nat) ∈ ([2, 2, 2, 2, 2] : List Nat) ∧
        ∃ b, chainW.getBalance "w" 5 = some b ∧ 0 < b)) ∧
      checkWalletAge chainW 1000 [] "w" =
        ({ isNew := decide (Int.fdiv (1000 - ((1 : Nat) : Int) * 1000)
              msPerDay ≤ NEW_ACCOUNT_DAYS),
           ageInDays := Int.fdiv (1000 - ((1 : Nat) : Int) * 1000) msPerDay,
           description :=
             if Int.fdiv (1000 - ((1 : Nat) : Int) * 1000) msPerDay = 0 then
               "Brand New - First Trade Today!"
             else toString (Int.fdiv (1000 - ((1 : Nat) : Int) * 1000)
               msPerDay) ++ " days old" },
         mapSet [] "w" (((1 : Nat) : Int) * 1000))) := by
  constructor
  · exact (checkWalletAge_search_structure chainWEst 0 [] "w" rfl).1
      42 rfl (by decide)
  · exact (checkWalletAge_search_structure chainW 1000 [] "w" rfl).2
      3 5 [2, 2, 2, 2, 2] 5 1 rfl (by decide) rfl rfl rfl

/-- C10: for an uncached low-transaction-count address whose balance is
zero at every probed block, the candidate stays at the current chain
height, so the estimator derives the first-seen time from the current
block, returns age 0 and `isNew = true` when that block timestamp is
within a day of now, caches that near-now first-seen time, and every
later call within the `NEW_ACCOUNT_DAYS` window keeps classifying the
address as new. -/
theorem checkWalletAge_zero_balance_pins_new (chain : Chain)
    (cache : List (String × Int)) (address : String)
    (n cb r ts : Nat) (probes : List Nat) (now : Int)
    (hmiss : cache.lookup address = none)
    (htc : chain.getTransactionCount address = some n) (hn : n ≤ 10)
    (hcb : chain.getBlockNumber = some cb)
    (htr : firstTxSearchTrace chain address cb (min 10000 cb) 5 cb =
      some (probes, r))
    (hzero : ∀ p ∈ probes, chain.getBalance address p = some 0)
    (hts : chain.getBlockTimestamp cb = some ts)
    (h1 : 0 ≤ now - (ts : Int) * 1000)
    (h2 : now - (ts : Int) * 1000 < msPerDay) :
    r = cb ∧
    checkWalletAge chain now cache address =
      ({ isNew := true, ageInDays := 0,
         description := "Brand New - First Trade Today!" },
       mapSet cache address ((ts : Int) * 1000)) ∧
    (∀ now', Int.fdiv (now' - (ts : Int) * 1000) msPerDay ≤
        NEW_ACCOUNT_DAYS →
      (checkWalletAge chain now'
        (mapSet cache address ((ts : Int) * 1000)) address).1.isNew = true) := by
  have hr : r = cb := firstTxSearchTrace_zero chain address cb
    (min 10000 cb) 5 cb probes r htr hzero
  have hsearch : firstTxSearch chain address cb (min 10000 cb) 5 cb =
      some cb := by
    rw [← firstTxSearchTrace_snd chain address cb (min 10000 cb) 5 cb, htr]
    simp [hr]
  have hage0 : Int.fdiv (now - (ts : Int) * 1000) msPerDay = 0 := by
    rw [Int.fdiv_eq_ediv _ (by norm_num [msPerDay] : (0 : Int) ≤ msPerDay)]
    exact Int.ediv_eq_zero_of_lt h1 h2
  refine ⟨hr, ?_, ?_⟩
  · simp [checkWalletAge, hmiss, htc, hn, hcb, hsearch, hts, hage0,
      NEW_ACCOUNT_DAYS]
  · intro now' h7
    have hl : (mapSet cache address ((ts : Int) * 1000)).lookup address =
        some ((ts : Int) * 1000) := by
      simp [mapSet, List.lookup]
    simp [checkWalletAge, hl, h7]

/-- Witness for C10: the 3-transaction wallet on `chainW` with all-zero
probed balances and a block timestamp one second after the epoch. -/
theorem checkWalletAge_zero_balance_pins_new_witness :
    (5 : Nat) = 5 ∧
    checkWalletAge chainW 1000 [] "w" =
      ({ isNew := true, ageInDays := 0,
         description := "Brand New - First Trade Today!" },
       mapSet [] "w" (((1 : Nat) : Int) * 1000)) ∧
    (∀ now', Int.fdiv (now' - ((1 : Nat) : Int) * 1000) msPerDay ≤
        NEW_ACCOUNT_DAYS →
      (checkWalletAge chainW now'
        (mapSet [] "w" (((1 : Nat) : Int) * 1000)) "w").1.isNew = true) :=
  checkWalletAge_zero_balance_pins_new chainW [] "w" 3 5 5 1 [2, 2, 2, 2, 2]
    1000 rfl rfl (by decide) rfl rfl (fun p _ => rfl) rfl (by decide) (by decide)
